import Mathlib

/-!
Verification development for the `movie-lib-tools` repository (file `src/yts.py`).

Strings from the Python source are modelled as lists of Unicode code points
(`List Nat`); Python floats that only ever hold exact decimal values (quality
ranks, backoff durations, ratings) are modelled as rationals (`ℚ`).
`codes s` converts a Lean string literal to its code-point list so that the
Lean definitions can quote the same literals as the source.
-/

def codes (s : String) : List Nat := s.data.map Char.toNat

/-- Python `str.lower` on a single ASCII code point (uppercase A–Z → a–z). -/
def lowerCode (n : Nat) : Nat := if 65 ≤ n ∧ n ≤ 90 then n + 32 else n

/-- Python `str.lower()` over a whole string, at its ASCII case mapping
(exact for the quality labels and imdb identifiers these models compare;
the title normalizer below uses the full one-to-many mapping `pyLower`). -/
def strLower (s : List Nat) : List Nat := s.map lowerCode

/-- Python dict `QUALITY_RANK = {"720p": 1, "1080p": 2, "1440p": 2.5, "2160p": 3, "4k": 3, "uhd": 3}`
with `.get(q, 0)` semantics: unknown labels rank 0 (src/yts.py:761). -/
def QUALITY_RANK (q : List Nat) : ℚ :=
  if q = codes ("720p") then 1
  else if q = codes ("1080p") then 2
  else if q = codes ("1440p") then 5/2
  else if q = codes ("2160p") then 3
  else if q = codes ("4k") then 3
  else if q = codes ("uhd") then 3
  else 0

/-- One entry of a YTS movie's `torrents` list.  Fields model the values of
`t.get("quality") or ""`, `t.get("type") or ""`, `t.get("hash") or ""` etc.,
so absent keys appear as empty strings (src/yts.py torrent dicts). -/
structure Torrent where
  quality : List Nat
  type : List Nat
  hash : List Nat
  size : List Nat
  seeds : Int
  peers : Int
deriving DecidableEq

/-- `YTSMovie` dataclass (src/yts.py:125-133). -/
structure YTSMovie where
  id : Int
  title : List Nat
  year : Int
  url : List Nat
  torrents : List Torrent
  rating : ℚ
  imdb_code : List Nat
deriving DecidableEq

/-- `RATING_UHD_THRESHOLD = 7.0` (src/yts.py:120). -/
def RATING_UHD_THRESHOLD : ℚ := 7

/-- `PREF_QUALITIES_HIGH = ["2160p", "1080p", "720p"]` (src/yts.py:121). -/
def PREF_QUALITIES_HIGH : List (List Nat) := [codes ("2160p"), codes ("1080p"), codes ("720p")]

/-- `PREF_QUALITIES_DEFAULT = ["1080p", "720p"]` (src/yts.py:122). -/
def PREF_QUALITIES_DEFAULT : List (List Nat) := [codes ("1080p"), codes ("720p")]

/-- `by_quality.setdefault(q, []).append(t)` on an insertion-ordered dict,
modelled as an association list (Python 3 dicts preserve insertion order). -/
def addGroup (m : List (List Nat × List Torrent)) (q : List Nat) (t : Torrent) :
    List (List Nat × List Torrent) :=
  if m.any (fun p => p.1 = q) then
    m.map (fun p => if p.1 = q then (p.1, p.2 ++ [t]) else p)
  else m ++ [(q, [t])]

/-- The `by_quality` map built in `_choose_next_quality` (src/yts.py:774-779):
group torrents by lowercased quality label, skipping empty labels. -/
def byQuality (ts : List Torrent) : List (List Nat × List Torrent) :=
  ts.foldl (fun m t =>
    let q := strLower t.quality
    if q = [] then m else addGroup m q t) []

/-- `arr.sort(key=lambda t: 0 if (t.get("type") or "").lower()=="bluray" else 1)`:
a stable two-key sort, i.e. the bluray-typed torrents (in original order)
followed by the rest (in original order) (src/yts.py:780-781). -/
def sortBluray (arr : List Torrent) : List Torrent :=
  arr.filter (fun t => strLower t.type = codes ("bluray"))
    ++ arr.filter (fun t => ¬ (strLower t.type = codes ("bluray")))

/-- The fully prepared `by_quality` groups of `_choose_next_quality`. -/
def byQualitySorted (ts : List Torrent) : List (List Nat × List Torrent) :=
  (byQuality ts).map (fun p => (p.1, sortBluray p.2))

/-- The preference-ladder loop of `_choose_next_quality` (src/yts.py:784-788):
first ladder entry whose rank exceeds `cur` and whose (lowercased) label has a
torrent group; returns the ladder label together with the group's first
torrent. -/
def prefFind (bq : List (List Nat × List Torrent)) (cur : ℚ) :
    List (List Nat) → Option (List Nat × Torrent)
  | [] => none
  | want :: rest =>
    let qk := strLower want
    if QUALITY_RANK qk > cur then
      match bq.lookup qk with
      | some arr =>
        match arr.head? with
        | some t => some (want, t)
        | none => prefFind bq cur rest
      | none => prefFind bq cur rest
    else prefFind bq cur rest

/-- Python string `<` (code-point lexicographic). -/
def strLtB : List Nat → List Nat → Bool
  | [], [] => false
  | [], _ :: _ => true
  | _ :: _, [] => false
  | a :: as, b :: bs => if a < b then true else if b < a then false else strLtB as bs

/-- Strict `>` on the `(rank, quality-key, torrent)` tuples of the fallback
scan; the torrent component is never compared because quality keys are
distinct (Python tuple comparison short-circuits). -/
def tripGt (a b : ℚ × List Nat × Torrent) : Bool :=
  if b.1 < a.1 then true
  else if a.1 = b.1 then strLtB b.2.1 a.2.1
  else false

/-- `candidates.sort(reverse=True); candidates[0]`: the greatest tuple under
descending sort, i.e. a fold keeping the strictly greater element
(src/yts.py:795-797). -/
def pickMax (l : List (ℚ × List Nat × Torrent)) : Option (ℚ × List Nat × Torrent) :=
  l.foldl (fun acc c =>
    match acc with
    | none => some c
    | some b => if tripGt c b then some c else some b) none

/-- `_choose_next_quality(match, cur_rank)` (src/yts.py:772-799). -/
def _choose_next_quality (m : YTSMovie) (cur : ℚ) : List Nat × Option Torrent :=
  let bq := byQualitySorted m.torrents
  let pref := if m.rating ≥ RATING_UHD_THRESHOLD then PREF_QUALITIES_HIGH
              else PREF_QUALITIES_DEFAULT
  match prefFind bq cur pref with
  | some (want, t) => (want, some t)
  | none =>
    let cands := bq.filterMap (fun p =>
      match p.2.head? with
      | some t => if QUALITY_RANK p.1 > cur then some (QUALITY_RANK p.1, p.1, t) else none
      | none => none)
    match pickMax cands with
    | some c => (c.2.1, some c.2.2)
    | none => ([], none)

/-! ### Title normalizer `_sanitize_title` (src/yts.py:159-165)

The four `re.sub` passes are modelled over code-point lists.  Python's
regex classes and `str.lower()` are full Unicode; the model is exact on
the ASCII range and on the two non-ASCII code points this development
evaluates: U+0130 (304, LATIN CAPITAL LETTER I WITH DOT ABOVE — a word
character whose lowercase is the two-character string `i` + U+0307) and
U+0307 (775, COMBINING DOT ABOVE — neither a word nor a space character).
Because lowercasing runs last and can create U+0307, which the
punctuation pass then deletes, the normalizer is idempotent only on
ASCII input; both facts are proved below. -/

/-- Membership in the regex class `[._]` (dot = 46, underscore = 95). -/
def isSepCode (n : Nat) : Bool := n = 46 || n = 95

/-- Membership in the regex class `\s`, exact on ASCII and on the two
evaluated non-ASCII points (U+0130 and U+0307 are not whitespace);
Python's class also covers other Unicode whitespace. -/
def isSpaceCode (n : Nat) : Bool := n = 32 || n = 9 || n = 10 || n = 13 || n = 11 || n = 12

/-- Membership in the regex class `\d`, exact on ASCII and on the two
evaluated non-ASCII points (neither is a digit); Python's class also
covers other Unicode decimal digits. -/
def isDigitCode (n : Nat) : Bool := 48 ≤ n && n ≤ 57

/-- Membership in the regex class `\w`: ASCII letters, digits and
underscore, plus U+0130 (304), which Python classifies as a word
character; U+0307 (775) is correctly excluded.  Exact on ASCII and on
the two evaluated non-ASCII points; Python's class also covers other
Unicode word characters. -/
def isWordCode (n : Nat) : Bool :=
  (65 ≤ n && n ≤ 90) || (97 ≤ n && n ≤ 122) || (48 ≤ n && n ≤ 57) || n = 95 || n = 304

/-- Python `str.lower()` on one code point, as a one-to-many character
mapping: ASCII `A`–`Z` map to `a`–`z`, and U+0130 maps to `i` followed by
U+0307 (the length-changing special case).  Code points that are their own
lowercase are returned unchanged — exact on ASCII and on U+0307. -/
def lowerChars (n : Nat) : List Nat :=
  if 65 ≤ n ∧ n ≤ 90 then [n + 32]
  else if n = 304 then [105, 775]
  else [n]

/-- Python `str.lower()` over a whole string: the concatenation of the
per-character lowercase expansions. -/
def pyLower (s : List Nat) : List Nat := s.flatMap lowerChars

/-- `re.sub(r"[c]+", " ", s)` for a character class `p`: each maximal run of
class members is replaced by a single space (32).  The boolean argument
records whether the previous character was a class member. -/
def squashGo (p : Nat → Bool) : Bool → List Nat → List Nat
  | _, [] => []
  | prev, c :: rest =>
    if p c then
      if prev then squashGo p true rest else 32 :: squashGo p true rest
    else c :: squashGo p false rest

/-- `re.sub(r"\((\d{4})\)", "", s)`: left-to-right scan removing every
non-overlapping occurrence of a parenthesized 4-digit year
(`(` = 40, `)` = 41). -/
def dropYear : List Nat → List Nat
  | 40 :: d1 :: d2 :: d3 :: d4 :: 41 :: rest =>
    if isDigitCode d1 && isDigitCode d2 && isDigitCode d3 && isDigitCode d4
    then dropYear rest
    else 40 :: dropYear (d1 :: d2 :: d3 :: d4 :: 41 :: rest)
  | c :: rest => c :: dropYear rest
  | [] => []

/-- The pointwise substitution of `re.sub(r"[^\w\s]", " ", s)`. -/
def punctFix (c : Nat) : Nat := if !(isWordCode c) && !(isSpaceCode c) then 32 else c

/-- Python `str.strip()`: drop leading and trailing whitespace. -/
def pyStrip (l : List Nat) : List Nat :=
  (((l.dropWhile isSpaceCode).reverse.dropWhile isSpaceCode)).reverse

/-- `_sanitize_title(s)` (src/yts.py:159-165): collapse `[._]+` runs to a
space, delete `(dddd)` year tokens, map other punctuation to spaces, collapse
whitespace runs, strip, lowercase (string-level `str.lower()`, last). -/
def _sanitize_title (s : List Nat) : List Nat :=
  pyLower (pyStrip (squashGo isSpaceCode false ((dropYear (squashGo isSepCode false s)).map punctFix)))

/-! ### Mirror registry `_yts_bases` (src/yts.py:43-78)

The environment variable `YTS_API_BASE` is an input parameter of the model
(ambient configuration state in the source). -/

/-- `_YTS_DEFAULT_BASES` (src/yts.py:43-51). -/
def _YTS_DEFAULT_BASES : List (List Nat) :=
  [codes ("https://www.yts-official.to/api/v2"),
   codes ("https://yts.rs/api/v2"),
   codes ("https://yts.lt/api/v2"),
   codes ("https://yts.mx/api/v2"),
   codes ("https://yts.pm/api/v2"),
   codes ("https://yts.ag/api/v2"),
   codes ("https://yts.am/api/v2")]

/-- Python `b.rstrip('/')` (47 = slash). -/
def rstripSlashes (b : List Nat) : List Nat :=
  (b.reverse.dropWhile (fun c => c = 47)).reverse

/-- Normalization of one configured root (src/yts.py:63-67): if it already
ends with `/api/v2` just strip trailing slashes, otherwise strip trailing
slashes and append `/api/v2`. -/
def normBase (b : List Nat) : List Nat :=
  if (codes ("/api/v2")).isSuffixOf b then rstripSlashes b
  else rstripSlashes b ++ codes ("/api/v2")

/-- The configured-roots list built from the environment value
(src/yts.py:56-68): strip, split on commas (44), strip each piece, skip
empties, normalize. -/
def envRoots (env : List Nat) : List (List Nat) :=
  if pyStrip env = [] then []
  else ((pyStrip env).splitOn 44).filterMap (fun raw =>
    if pyStrip raw = [] then none else some (normBase (pyStrip raw)))

/-- The `seen`/`uniq` de-duplication loop (src/yts.py:72-77): keep the first
occurrence of each base. -/
def dedupFirstGo (seen : List (List Nat)) : List (List Nat) → List (List Nat)
  | [] => []
  | b :: rest => if b ∈ seen then dedupFirstGo seen rest
                 else b :: dedupFirstGo (b :: seen) rest

/-- `_yts_bases()` (src/yts.py:54-78), as a function of the environment value. -/
def _yts_bases (env : List Nat) : List (List Nat) :=
  dedupFirstGo [] (envRoots env ++ _YTS_DEFAULT_BASES)

/-- Modelled from the spec: "duplicates removed keeping first occurrence" as
a direct recursion — keep the head, delete its later duplicates, recurse. -/
def specDedupFirst : List (List Nat) → List (List Nat)
  | [] => []
  | a :: rest => a :: specDedupFirst (rest.filter (fun x => x ≠ a))
termination_by l => l.length
decreasing_by
  simp only [List.length_cons]
  exact Nat.lt_succ_of_le (rest.length_filter_le _)

/-! ### Candidate selection (src/yts.py:551-559, 596-613, 874-880)

`_title_similarity` computes `difflib.SequenceMatcher(...).ratio()`; the
claims quantify over arbitrary similarity scores ("regardless of title
similarity"), so the similarity function is a parameter `sim` of the
embedding rather than a fixed definition. -/

/-- The exact-ID test `(m.imdb_code or "").lower() == imdb_id.lower()`
(src/yts.py:555, 878). -/
def imdbMatches (imdbId : List Nat) (m : YTSMovie) : Bool :=
  strLower m.imdb_code == strLower imdbId

/-- Python truthiness of the optional `year` argument (`if year:`):
`None` and `0` are falsy. -/
def pyTruthyYear : Option Int → Bool
  | none => false
  | some y => y != 0

/-- Strict `<` on 2-tuples of rationals (Python tuple comparison). -/
def lex2Lt (a b : ℚ × ℚ) : Bool :=
  if a.1 < b.1 then true else if a.1 = b.1 then decide (a.2 < b.2) else false

/-- Strict `<` on 3-tuples of rationals (Python tuple comparison). -/
def lex3Lt (a b : ℚ × ℚ × ℚ) : Bool :=
  if a.1 < b.1 then true
  else if a.1 = b.1 then
    if a.2.1 < b.2.1 then true
    else if a.2.1 = b.2.1 then decide (a.2.2 < b.2.2) else false
  else false

/-- Python `max(iterable, key=key)`: scan left to right, replacing the current
best only on a strictly greater key (so the first maximal element wins). -/
def pyMaxBy {κ : Type} (lt : κ → κ → Bool) (key : YTSMovie → κ) (l : List YTSMovie) :
    Option YTSMovie :=
  l.foldl (fun acc m =>
    match acc with
    | none => some m
    | some b => if lt (key b) (key m) then some m else some b) none

/-- `_best_match(movies, title, year)` (src/yts.py:596-613), parameterized by
the title-similarity oracle `sim`. -/
def _best_match (sim : List Nat → List Nat → ℚ) (movies : List YTSMovie)
    (title : List Nat) (year : Option Int) : Option YTSMovie :=
  match movies with
  | [] => none
  | _ :: _ =>
    let sameYear := movies.filter (fun m => m.year = year.getD 0)
    if pyTruthyYear year ∧ sameYear ≠ [] then
      pyMaxBy lex2Lt (fun m => (m.rating, sim title m.title)) sameYear
    else
      pyMaxBy lex3Lt (fun m =>
        (m.rating, sim title m.title,
         if pyTruthyYear year then
           (if m.year ≠ 0 then -(abs ((m.year : ℚ) - ((year.getD 0 : Int) : ℚ))) else -9999)
         else 0)) movies

/-- The selection step shared by `yts_lookup_from_jf_csv` (src/yts.py:551-559)
and `task` (src/yts.py:874-880): on a non-empty external ID, the first
candidate whose imdb code matches case-insensitively wins; otherwise fall
back to `_best_match`. -/
def selectMatch (sim : List Nat → List Nat → ℚ) (movies : List YTSMovie)
    (title : List Nat) (year : Option Int) (imdbId : List Nat) : Option YTSMovie :=
  if imdbId ≠ [] then
    match movies.find? (imdbMatches imdbId) with
    | some m => some m
    | none => _best_match sim movies title year
  else _best_match sim movies title year

/-! ### Resilient search client `yts_search` (src/yts.py:175-262)

The network is modelled as an oracle assigning an `Outcome` to each
(mirror, attempt) pair; the client is a pure function of that oracle which
also returns the trace of requests and sleeps it performs, grouped per
mirror. -/

/-- Classification of one request's outcome, as the code distinguishes them:
DNS failure, other raised error (transport error or non-2xx status), a 2xx
response that is not the API's JSON, or parsed JSON (with its slowness flag
`elapsed >= slow_after` and the parsed movie list). -/
inductive Outcome where
  | dnsError : Outcome
  | reqError : Outcome
  | nonJson : Outcome
  | success : Bool → List YTSMovie → Outcome
deriving DecidableEq

/-- Observable actions of the attempt loop: issuing request number `attempt`
on the current mirror, or sleeping for `dur` seconds. -/
inductive Event where
  | request : Nat → Event
  | sleep : ℚ → Event
deriving DecidableEq

/-- The per-mirror attempt loop of `yts_search` (src/yts.py:188-259):
`attempt` counts requests on this mirror from 1, `backoff` starts at 0.75 and
doubles after every sleep; retries (after errors or slow successes) happen
only while `attempt <= retries`.  The structural `fuel` argument starts at
`retries` with `attempt = 1` and decreases as `attempt` increases, so
`fuel = 0` occurs exactly at `attempt = retries + 1`, where every
`attempt <= retries` test of the code fails: the zero case is that
exhausted-budget behavior (a success returns its movies, everything else
abandons the mirror). -/
def mirrorGo (oracle : Nat → Outcome) (retries : Nat) :
    Nat → Nat → ℚ → Option (List YTSMovie) × List Event
  | 0, attempt, _ =>
    match oracle attempt with
    | .success _ ms => (some ms, [.request attempt])
    | _ => (none, [.request attempt])
  | fuel + 1, attempt, backoff =>
    match oracle attempt with
    | .dnsError => (none, [.request attempt])
    | .nonJson => (none, [.request attempt])
    | .reqError =>
      if attempt ≤ retries then
        let r := mirrorGo oracle retries fuel (attempt + 1) (2 * backoff)
        (r.1, .request attempt :: .sleep backoff :: r.2)
      else (none, [.request attempt])
    | .success slow ms =>
      if slow ∧ attempt ≤ retries then
        let r := mirrorGo oracle retries fuel (attempt + 1) (2 * backoff)
        (r.1, .request attempt :: .sleep backoff :: r.2)
      else (some ms, [.request attempt])

/-- One mirror's full trial: attempt counter starts at 1, backoff at 0.75 s
(src/yts.py:188-189). -/
def runMirror (oracle : Nat → Outcome) (retries : Nat) :
    Option (List YTSMovie) × List Event :=
  mirrorGo oracle retries retries 1 (3/4)

/-- The mirror loop of `yts_search` (src/yts.py:186-262) over the remaining
mirror indices: on a returned movie list stop, otherwise advance; when every
mirror is exhausted return the empty list.  The trace is grouped per tried
mirror. -/
def searchGo (oracle : Nat → Nat → Outcome) (retries : Nat) :
    List Nat → List YTSMovie × List (Nat × List Event)
  | [] => ([], [])
  | i :: rest =>
    match (runMirror (oracle i) retries).1 with
    | some ms => (ms, [(i, (runMirror (oracle i) retries).2)])
    | none =>
      let s := searchGo oracle retries rest
      (s.1, (i, (runMirror (oracle i) retries).2) :: s.2)

/-- `yts_search` (src/yts.py:175-262) as a function of the outcome oracle,
the number of registry mirrors and the retry budget, returning the movie
list together with the per-mirror event trace. -/
def yts_search (oracle : Nat → Nat → Outcome) (numBases retries : Nat) :
    List YTSMovie × List (Nat × List Event) :=
  searchGo oracle retries (List.range numBases)

/-- The sleep durations occurring in an event trace, in order. -/
def sleepsOf (evs : List Event) : List ℚ :=
  evs.filterMap (fun e => match e with | .sleep d => some d | .request _ => none)

/-! ### Quality-availability fields (src/yts.py:563-574, 911-941) -/

/-- One entry `f"{q}.{typ}"` of the `all_q` list. -/
def pairStr (t : Torrent) : List Nat := t.quality ++ codes (".") ++ t.type

/-- The `all_q` list of `yts_lookup_from_jf_csv` (src/yts.py:563-567); the
output field is this list joined with commas (src/yts.py:574). -/
def jfQualityAvailable (m : YTSMovie) : List (List Nat) :=
  m.torrents.map pairStr

/-- Insertion step of Python `sorted` under the string order `strLtB`. -/
def pyInsert (x : List Nat) : List (List Nat) → List (List Nat)
  | [] => [x]
  | y :: ys => if strLtB y x then y :: pyInsert x ys else x :: y :: ys

/-- Python `sorted` on a list of strings (any comparison sort agrees on the
distinct elements produced by `set`). -/
def pySort : List (List Nat) → List (List Nat)
  | [] => []
  | x :: xs => pyInsert x (pySort xs)

/-- The `sorted(set(all_q))` field of `process_one` (src/yts.py:938); the
output field is this list joined with `|`. -/
def csvQualityAvailable (m : YTSMovie) : List (List Nat) :=
  pySort (m.torrents.map pairStr).dedup

/-- Modelled from the spec: the set of `label.kind` pairs derived from the
candidate's release variants ("deduplicated, order-independent"). -/
def availableQualitiesSpec (m : YTSMovie) : Finset (List Nat) :=
  ((m.torrents.map (fun t => (t.quality, t.type))).toFinset).image
    (fun p => p.1 ++ codes (".") ++ p.2)

/-! ### Batch-driver row handling (src/yts.py:822-1005)

A CSV row is an association list from column name to value; Python's
`row.get(c, "")` (and the `or ""` idiom) becomes a total lookup defaulting to
the empty string.  The network-dependent `task` is an oracle argument. -/

/-- A CSV row. -/
def Row : Type := List (List Nat × List Nat)

/-- `row.get(c, "")` / `row.get(c) or ""`. -/
def rowGet (row : Row) (k : List Nat) : List Nat :=
  (List.lookup k row).getD []

/-- Python `a or b` on strings (empty is falsy). -/
def pyOr (a b : List Nat) : List Nat := if a = [] then b else a

/-- `add_cols` (src/yts.py:883). -/
def add_cols : List (List Nat) :=
  [codes ("yts_title"), codes ("yts_year"), codes ("yts_url"),
   codes ("yts_quality_available"), codes ("yts_next_quality"), codes ("magnet")]

/-- Substring test, modelling Python's `in` on strings. -/
def hasSub (hay needle : List Nat) : Bool :=
  (List.range (hay.length + 1)).any (fun i => needle.isPrefixOf (hay.drop i))

/-- `_detect_current_quality(name)` (src/yts.py:764-769). -/
def _detect_current_quality (name : List Nat) : ℚ :=
  if hasSub (strLower name) (codes ("2160p")) then 3
  else if hasSub (strLower name) (codes ("4k")) then 3
  else if hasSub (strLower name) (codes ("uhd")) then 3
  else if hasSub (strLower name) (codes ("1440p")) then 5/2
  else if hasSub (strLower name) (codes ("1080p")) then 2
  else if hasSub (strLower name) (codes ("1024p")) then 3/2
  else if hasSub (strLower name) (codes ("720p")) then 1
  else 0

/-- `_rank_from_height(height)` (src/yts.py:482-493). -/
def _rank_from_height : Option Int → ℚ
  | none => 0
  | some h =>
    if h = 0 then 0
    else if h ≥ 2160 then 3
    else if h ≥ 1440 then 5/2
    else if h ≥ 1080 then 2
    else if h ≥ 720 then 1
    else 0

/-- UTF-8 encoding of one code point (used by `urllib.parse.quote`). -/
def utf8Bytes (c : Nat) : List Nat :=
  if c < 128 then [c]
  else if c < 2048 then [192 + c / 64, 128 + c % 64]
  else if c < 65536 then [224 + c / 4096, 128 + (c / 64) % 64, 128 + c % 64]
  else [240 + c / 262144, 128 + (c / 4096) % 64, 128 + (c / 64) % 64, 128 + c % 64]

/-- Uppercase hex digit of a nibble. -/
def hexUpper (n : Nat) : Nat := if n < 10 then 48 + n else 55 + n

/-- Bytes left unescaped by `urllib.parse.quote` with the default
`safe='/'`: ASCII letters, digits, `_ . - ~` and `/`. -/
def quoteSafe (c : Nat) : Bool :=
  (65 ≤ c && c ≤ 90) || (97 ≤ c && c ≤ 122) || (48 ≤ c && c ≤ 57) ||
    c = 95 || c = 46 || c = 45 || c = 126 || c = 47

/-- `urllib.parse.quote(s)`: UTF-8 encode, then percent-encode every unsafe
byte with uppercase hex. -/
def pyQuote (s : List Nat) : List Nat :=
  (s.flatMap utf8Bytes).flatMap (fun b =>
    if quoteSafe b then [b] else [37, hexUpper (b / 16), hexUpper (b % 16)])

/-- `magnet_from_torrent(title, torrent)` (src/yts.py:802-806). -/
def magnet_from_torrent (title : List Nat) (t : Torrent) : List Nat :=
  codes ("magnet:?xt=urn:btih:") ++ t.hash ++ codes ("&dn=")
    ++ pyQuote (title ++ codes (".") ++ t.quality ++ codes (".") ++ t.type)

/-- Python `str(n)` for an integer. -/
def intStr (n : Int) : List Nat := codes (toString n)

/-- `process_one(row)` (src/yts.py:891-942) as a function of the outcome of
the inner `task(row)` call (src/yts.py:899-904): an exception from `task`
(which is the only statement guarded by the inner `try`) yields the all-empty
7-tuple, as does a `None` match; otherwise the combined row
`[src, title, year, url, available, next_quality, magnet]` is built. -/
def process_one (row : Row) (taskRes : Except Unit (Option YTSMovie)) : List (List Nat) :=
  let src := pyOr (rowGet row (codes ("path"))) (rowGet row (codes ("folder_path")))
  let cur := _detect_current_quality src
  match taskRes with
  | .error _ => [src, [], [], [], [], [], []]
  | .ok none => [src, [], [], [], [], [], []]
  | .ok (some mv) =>
    let next := _choose_next_quality mv cur
    let nextMag := match next.2 with
      | some t => magnet_from_torrent mv.title t
      | none => []
    [src, mv.title, intStr mv.year, mv.url,
     List.intercalate (codes ("|")) (pySort (mv.torrents.map pairStr).dedup),
     next.1, nextMag]

/-- Truthiness of the row-skipping test (src/yts.py:957):
`not refresh and (row.get("yts_next_quality") or row.get("magnet") or row.get("yts_title"))`. -/
def skipCond (refresh : Bool) (row : Row) : Bool :=
  !refresh && (!(rowGet row (codes ("yts_next_quality"))).isEmpty
    || !(rowGet row (codes ("magnet"))).isEmpty
    || !(rowGet row (codes ("yts_title"))).isEmpty)

/-- How one iteration of the write loop obtained (or failed to obtain) its
`combined` value: a normal `process_one` return, a `KeyboardInterrupt`, or
any other exception escaping `process_one`. -/
inductive ProcOutcome where
  | ok : List (List Nat) → ProcOutcome
  | interrupt : ProcOutcome
  | exn : ProcOutcome
deriving DecidableEq

/-- Result of one iteration of the write loop: the enrichment columns written
for this row, and whether the loop continues to the next row (a
`KeyboardInterrupt` re-raises after writing, aborting the batch). -/
structure StepResult where
  enriched : List (List Nat × List Nat)
  continues : Bool
deriving DecidableEq

/-- One iteration of the write loop of `yts_lookup_from_csv`
(src/yts.py:954-993): skip rows that already carry enrichment (unless
`refresh`), map a normal `combined` to the six enrichment columns, write the
row's existing values and stop on interrupt, write the row's existing values
and continue on any other exception. -/
def writeStep (refresh : Bool) (row : Row) (proc : ProcOutcome) : StepResult :=
  if skipCond refresh row then
    ⟨add_cols.map (fun c => (c, rowGet row c)), true⟩
  else
    match proc with
    | .ok combined => ⟨add_cols.zip (combined.drop 1), true⟩
    | .interrupt => ⟨add_cols.map (fun c => (c, rowGet row c)), false⟩
    | .exn => ⟨add_cols.map (fun c => (c, rowGet row c)), true⟩

/-! ### Concrete data used by scenario theorems and witnesses -/

/-- The 1080p/web variant of the C6 scenario. -/
def tw1080 : Torrent := ⟨codes ("1080p"), codes ("web"), codes ("h1"), codes ("1.7 GB"), 10, 5⟩

/-- The 2160p/bluray variant of the C6 scenario. -/
def tb2160 : Torrent := ⟨codes ("2160p"), codes ("bluray"), codes ("h2"), codes ("8 GB"), 7, 3⟩

/-- The 720p/web variant of the C6 scenario. -/
def tw720 : Torrent := ⟨codes ("720p"), codes ("web"), codes ("h3"), codes ("0.8 GB"), 4, 2⟩

/-- The candidate of the C6 scenario: rating 8.0, variants
`[1080p/web, 2160p/bluray, 720p/web]`. -/
def mC6 : YTSMovie :=
  ⟨1, codes ("Example"), 2020, codes ("u"), [tw1080, tb2160, tw720], 8, codes ("tt0000001")⟩

/-- A candidate whose imdb code matches `TT0000001` case-insensitively but
whose rating is low. -/
def mLow : YTSMovie := ⟨2, codes ("Low"), 2001, codes ("ul"), [], 1, codes ("tt0000001")⟩

/-- A higher-rated candidate with a different imdb code. -/
def mHigh : YTSMovie := ⟨3, codes ("High"), 2001, codes ("uh"), [], 9, codes ("tt0000002")⟩

/-- A constant similarity oracle for witnesses. -/
def simZero : List Nat → List Nat → ℚ := fun _ _ => 0

/-- A row carrying a stale `yts_year` value but no other enrichment. -/
def rowYear : Row := [(codes ("yts_year"), codes ("2001"))]

/-- An oracle on which every request raises a DNS error. -/
def oracleDns : Nat → Nat → Outcome := fun _ _ => Outcome.dnsError

/-- An oracle on which every request raises a non-DNS transport error. -/
def oracleReq : Nat → Nat → Outcome := fun _ _ => Outcome.reqError

/-- Invariant of the `by_quality` groups: every key is a non-empty
already-lowercased label, and every stored torrent comes from `S` and has
that key as its lowercased quality. -/
def GroupOK (S : List Torrent) (p : List Nat × List Torrent) : Prop :=
  p.1 ≠ [] ∧ strLower p.1 = p.1 ∧ ∀ t ∈ p.2, t ∈ S ∧ strLower t.quality = p.1

/-- Characterization of the characters a sanitized title may contain:
a single space, a lowercase ASCII letter, or an ASCII digit. -/
def GoodChar (c : Nat) : Prop := c = 32 ∨ (97 ≤ c ∧ c ≤ 122) ∨ (48 ≤ c ∧ c ≤ 57)

/-! ## Theorems -/

theorem lowerCode_idem (n : Nat) : lowerCode (lowerCode n) = lowerCode n := by
  unfold lowerCode
  by_cases h : 65 ≤ n ∧ n ≤ 90
  · simp only [if_pos h]
    rw [if_neg (by omega)]
  · simp only [if_neg h]

theorem strLower_idem (s : List Nat) : strLower (strLower s) = strLower s := by
  simp only [strLower, List.map_map, Function.comp_def, lowerCode_idem]

theorem lookup_mem {bq : List (List Nat × List Torrent)} {k : List Nat} {arr : List Torrent}
    (h : List.lookup k bq = some arr) : (k, arr) ∈ bq := by
  induction bq with
  | nil => simp [List.lookup] at h
  | cons a l ih =>
    obtain ⟨k0, v0⟩ := a
    by_cases hk : k = k0
    · subst hk
      simp [List.lookup] at h
      simp [h]
    · have hb : (k == k0) = false := by simp [hk]
      simp [List.lookup, hb] at h
      exact List.mem_cons_of_mem _ (ih h)

theorem sortBluray_subset {arr : List Torrent} {t : Torrent} (h : t ∈ sortBluray arr) :
    t ∈ arr := by
  rcases List.mem_append.1 h with h' | h' <;> exact (List.mem_filter.1 h').1

theorem addGroup_groupOK {S : List Torrent} {m : List (List Nat × List Torrent)}
    {q : List Nat} {t : Torrent}
    (hm : ∀ p ∈ m, GroupOK S p) (hq : q = strLower t.quality) (hne : q ≠ [])
    (ht : t ∈ S) : ∀ p ∈ addGroup m q t, GroupOK S p := by
  intro p hp
  unfold addGroup at hp
  split at hp
  · rcases List.mem_map.1 hp with ⟨p0, hp0, rfl⟩
    by_cases h : p0.1 = q
    · rw [if_pos h]
      obtain ⟨h1, h2, h3⟩ := hm p0 hp0
      refine ⟨h1, h2, ?_⟩
      intro x hx
      rcases List.mem_append.1 hx with hx' | hx'
      · exact h3 x hx'
      · rcases List.mem_singleton.1 hx' with rfl
        exact ⟨ht, by rw [h, hq]⟩
    · rw [if_neg h]
      exact hm p0 hp0
  · rcases List.mem_append.1 hp with h | h
    · exact hm p h
    · rcases List.mem_singleton.1 h with rfl
      refine ⟨hne, ?_, ?_⟩
      · rw [hq, strLower_idem]
      · intro x hx
        rcases List.mem_singleton.1 hx with rfl
        exact ⟨ht, hq.symm⟩

theorem byQuality_groupOK (ts : List Torrent) : ∀ p ∈ byQuality ts, GroupOK ts p := by
  have aux : ∀ (l : List Torrent) (acc : List (List Nat × List Torrent)),
      (∀ p ∈ acc, GroupOK ts p) → (∀ t ∈ l, t ∈ ts) →
      ∀ p ∈ l.foldl (fun m t =>
        let q := strLower t.quality
        if q = [] then m else addGroup m q t) acc, GroupOK ts p := by
    intro l
    induction l with
    | nil => intro acc hacc _ p hp; exact hacc p hp
    | cons t l ih =>
      intro acc hacc hl p hp
      simp only [List.foldl_cons] at hp
      refine ih _ ?_ (fun x hx => hl x (List.mem_cons_of_mem _ hx)) p hp
      intro p' hp'
      by_cases hq : strLower t.quality = []
      · simpa [hq] using hacc p' (by simpa [hq] using hp')
      · have hmem : p' ∈ addGroup acc (strLower t.quality) t := by simpa [hq] using hp'
        exact addGroup_groupOK hacc rfl hq (hl t (List.mem_cons_self _ _)) p' hmem
  intro p hp
  exact aux ts [] (by simp) (fun _ h => h) p hp

theorem byQualitySorted_groupOK (ts : List Torrent) :
    ∀ p ∈ byQualitySorted ts, GroupOK ts p := by
  intro p hp
  rcases List.mem_map.1 hp with ⟨p0, hp0, rfl⟩
  obtain ⟨h1, h2, h3⟩ := byQuality_groupOK ts p0 hp0
  exact ⟨h1, h2, fun t ht => h3 t (sortBluray_subset ht)⟩

theorem prefFind_sound {bq : List (List Nat × List Torrent)} {cur : ℚ} :
    ∀ {pref : List (List Nat)} {want : List Nat} {t : Torrent},
      prefFind bq cur pref = some (want, t) →
      want ∈ pref ∧ QUALITY_RANK (strLower want) > cur ∧
        ∃ arr, List.lookup (strLower want) bq = some arr ∧ arr.head? = some t := by
  intro pref
  induction pref with
  | nil => intro want t h; simp [prefFind] at h
  | cons w rest ih =>
    intro want t h
    by_cases hrank : QUALITY_RANK (strLower w) > cur
    · cases hl : List.lookup (strLower w) bq with
      | none =>
        rw [prefFind] at h
        simp only [if_pos hrank, hl] at h
        obtain ⟨h1, h2, h3⟩ := ih h
        exact ⟨List.mem_cons_of_mem _ h1, h2, h3⟩
      | some arr =>
        cases hh : arr.head? with
        | none =>
          rw [prefFind] at h
          simp only [if_pos hrank, hl, hh] at h
          obtain ⟨h1, h2, h3⟩ := ih h
          exact ⟨List.mem_cons_of_mem _ h1, h2, h3⟩
        | some t0 =>
          rw [prefFind] at h
          simp only [if_pos hrank, hl, hh, Option.some.injEq, Prod.mk.injEq] at h
          obtain ⟨rfl, rfl⟩ := h
          exact ⟨List.mem_cons_self _ _, hrank, arr, hl, hh⟩
    · rw [prefFind] at h
      simp only [if_neg hrank] at h
      obtain ⟨h1, h2, h3⟩ := ih h
      exact ⟨List.mem_cons_of_mem _ h1, h2, h3⟩

theorem pickMax_mem : ∀ (l : List (ℚ × List Nat × Torrent))
    (acc : Option (ℚ × List Nat × Torrent)) (c : ℚ × List Nat × Torrent),
    l.foldl (fun acc c =>
      match acc with
      | none => some c
      | some b => if tripGt c b then some c else some b) acc = some c →
    acc = some c ∨ c ∈ l := by
  intro l
  induction l with
  | nil => intro acc c h; exact Or.inl h
  | cons x l ih =>
    intro acc c h
    simp only [List.foldl_cons] at h
    rcases ih _ c h with h' | h'
    · cases acc with
      | none =>
        simp only [Option.some.injEq] at h'
        exact Or.inr (h' ▸ List.mem_cons_self _ _)
      | some b =>
        have h2 : (if tripGt x b = true then some x else some b) = some c := h'
        by_cases hg : tripGt x b = true
        · rw [if_pos hg] at h2
          simp only [Option.some.injEq] at h2
          exact Or.inr (h2 ▸ List.mem_cons_self _ _)
        · rw [if_neg hg] at h2
          exact Or.inl h2
    · exact Or.inr (List.mem_cons_of_mem _ h')

theorem head?_mem {α : Type} {l : List α} {a : α} (h : l.head? = some a) : a ∈ l := by
  cases l with
  | nil => cases h
  | cons x xs =>
    simp only [List.head?_cons, Option.some.injEq] at h
    exact h ▸ List.mem_cons_self _ _

theorem pref_entries_ne_nil (r : ℚ) :
    ∀ w ∈ (if r ≥ RATING_UHD_THRESHOLD then PREF_QUALITIES_HIGH else PREF_QUALITIES_DEFAULT),
      w ≠ [] := by
  split <;> decide

theorem choose_next_quality_cases (m : YTSMovie) (cur : ℚ) :
    _choose_next_quality m cur = ([], none)
    ∨ (∃ label t, _choose_next_quality m cur = (label, some t)
        ∧ QUALITY_RANK (strLower label) > cur
        ∧ label ≠ []
        ∧ t ∈ m.torrents ∧ strLower t.quality = strLower label) := by
  rcases hr : _choose_next_quality m cur with ⟨label, tv⟩
  simp only [_choose_next_quality] at hr
  split at hr
  · rename_i want t hp
    obtain ⟨hmem, hrank, arr, hl, hh⟩ := prefFind_sound hp
    obtain ⟨rfl, rfl⟩ := Prod.mk.injEq .. ▸ hr
    right
    obtain ⟨g1, g2, g3⟩ := byQualitySorted_groupOK m.torrents _ (lookup_mem hl)
    obtain ⟨ht, hq⟩ := g3 t (head?_mem hh)
    refine ⟨want, t, rfl, hrank, pref_entries_ne_nil m.rating want hmem, ht, ?_⟩
    rw [hq]
  · rename_i hp
    split at hr
    · rename_i c hm
      right
      have hc : c ∈ (byQualitySorted m.torrents).filterMap (fun p =>
          match p.2.head? with
          | some t => if QUALITY_RANK p.1 > cur then some (QUALITY_RANK p.1, p.1, t) else none
          | none => none) := by
        rcases pickMax_mem _ none c hm with h' | h'
        · cases h'
        · exact h'
      rcases List.mem_filterMap.1 hc with ⟨p, hpmem, hf⟩
      obtain ⟨g1, g2, g3⟩ := byQualitySorted_groupOK m.torrents p hpmem
      cases hh : p.2.head? with
      | none => rw [hh] at hf; cases hf
      | some t0 =>
        rw [hh] at hf
        have hf2 : (if QUALITY_RANK p.1 > cur then
            some ((QUALITY_RANK p.1, p.1, t0) : ℚ × List Nat × Torrent) else none) = some c := hf
        by_cases hrank : QUALITY_RANK p.1 > cur
        · rw [if_pos hrank] at hf2
          obtain rfl := Option.some.inj hf2
          obtain ⟨rfl, rfl⟩ := Prod.mk.injEq .. ▸ hr
          obtain ⟨ht0, hq0⟩ := g3 t0 (head?_mem hh)
          refine ⟨p.1, t0, rfl, ?_, g1, ht0, ?_⟩
          · rw [g2]; exact hrank
          · rw [hq0, g2]
        · rw [if_neg hrank] at hf2
          cases hf2
    · left
      obtain ⟨h1, h2⟩ := Prod.mk.injEq .. ▸ hr
      rw [← h1, ← h2]

/-- C1: For every candidate movie and every currentRank, `_choose_next_quality`
either returns an empty label with no variant, or returns a quality label
whose numeric rank under the `QUALITY_RANK` scale is strictly greater than
currentRank; it never returns a label whose rank is ≤ currentRank. -/
theorem choose_next_quality_rank_exceeds (m : YTSMovie) (cur : ℚ) :
    ((_choose_next_quality m cur).1 = [] ∧ (_choose_next_quality m cur).2 = none)
    ∨ QUALITY_RANK (strLower (_choose_next_quality m cur).1) > cur := by
  rcases choose_next_quality_cases m cur with h | ⟨label, t, h, hrank, _, _, _⟩
  · left; rw [h]; exact ⟨rfl, rfl⟩
  · right; rw [h]; exact hrank

/-- C6: For the candidate with rating 8.0 and variants
`[1080p/web, 2160p/bluray, 720p/web]`: with currentRank 1,
`_choose_next_quality` returns the label `2160p` with the 2160p bluray
variant; with currentRank 3 it returns an empty label and no variant. -/
theorem choose_next_quality_scenario :
    _choose_next_quality mC6 1 = (codes ("2160p"), some tb2160)
    ∧ _choose_next_quality mC6 3 = ([], none) := by
  decide

/-- C10: Whenever `_choose_next_quality` returns a variant, that variant is an
element of the candidate's torrents list and its quality field equals the
returned label case-insensitively; the returned label is non-empty exactly
when a variant is returned. -/
theorem choose_next_quality_variant_sound (m : YTSMovie) (cur : ℚ) :
    ((_choose_next_quality m cur).1 ≠ [] ↔ ((_choose_next_quality m cur).2).isSome = true)
    ∧ ∀ t, (_choose_next_quality m cur).2 = some t →
        t ∈ m.torrents ∧ strLower t.quality = strLower (_choose_next_quality m cur).1 := by
  rcases choose_next_quality_cases m cur with h | ⟨label, t0, h, _, hne, hmem, hq⟩
  · rw [h]
    constructor
    · simp
    · intro t ht
      cases ht
  · rw [h]
    constructor
    · simp [hne]
    · intro t ht
      simp only [Option.some.injEq] at ht
      subst ht
      exact ⟨hmem, hq⟩

/-- Witness for C10 at the concrete C6 candidate and currentRank 1. -/
theorem choose_next_quality_variant_sound_witness :
    tb2160 ∈ mC6.torrents ∧ strLower tb2160.quality = strLower (_choose_next_quality mC6 1).1 :=
  (choose_next_quality_variant_sound mC6 1).2 tb2160 (by decide)

theorem mem_pyInsert {x y : List Nat} : ∀ {l : List (List Nat)},
    x ∈ pyInsert y l ↔ x = y ∨ x ∈ l := by
  intro l
  induction l with
  | nil => simp [pyInsert]
  | cons z zs ih =>
    rw [pyInsert]
    by_cases h : strLtB z y = true
    · rw [if_pos h]
      simp only [List.mem_cons, ih]
      tauto
    · rw [if_neg h]
      simp only [List.mem_cons]

theorem mem_pySort {x : List Nat} : ∀ {l : List (List Nat)}, x ∈ pySort l ↔ x ∈ l := by
  intro l
  induction l with
  | nil => simp [pySort]
  | cons z zs ih =>
    rw [pySort, mem_pyInsert]
    simp only [List.mem_cons, ih]

/-- C8: For every matched candidate, the `availableQualities` output field
equals the set of `quality.kind` label pairs derived from the candidate's
release variants, deduplicated and order-independent — both as computed by
`yts_lookup_from_jf_csv` (comma-joined `all_q` list) and by
`yts_lookup_from_csv`/`process_one` (pipe-joined `sorted(set(all_q))`). -/
theorem quality_available_derivable (m : YTSMovie) :
    (jfQualityAvailable m).toFinset = availableQualitiesSpec m
    ∧ (csvQualityAvailable m).toFinset = availableQualitiesSpec m := by
  have key : ∀ a : List Nat,
      (∃ t ∈ m.torrents, t.quality ++ codes (".") ++ t.type = a) ↔
      (∃ p : List Nat × List Nat, (∃ t ∈ m.torrents, (t.quality, t.type) = p)
        ∧ p.1 ++ codes (".") ++ p.2 = a) := by
    intro a
    constructor
    · rintro ⟨t, ht, rfl⟩
      exact ⟨(t.quality, t.type), ⟨t, ht, rfl⟩, rfl⟩
    · rintro ⟨p, ⟨t, ht, rfl⟩, rfl⟩
      exact ⟨t, ht, rfl⟩
  constructor
  · ext a
    simp only [jfQualityAvailable, availableQualitiesSpec, pairStr, List.mem_toFinset,
      List.mem_map, Finset.mem_image]
    exact key a
  · ext a
    simp only [csvQualityAvailable, availableQualitiesSpec, pairStr, List.mem_toFinset,
      Finset.mem_image, mem_pySort, List.mem_dedup, List.mem_map]
    exact key a

theorem find?_first_split {α : Type} {p : α → Bool} : ∀ {l : List α} {y : α},
    l.find? p = some y →
    ∃ pre rest, l = pre ++ y :: rest ∧ p y = true ∧ ∀ z ∈ pre, ¬ p z = true := by
  intro l
  induction l with
  | nil => intro y h; cases h
  | cons x xs ih =>
    intro y h
    by_cases hx : p x = true
    · rw [List.find?_cons_of_pos _ hx] at h
      obtain rfl := Option.some.inj h
      exact ⟨[], xs, rfl, hx, by simp⟩
    · rw [List.find?_cons_of_neg _ hx] at h
      obtain ⟨pre, rest, rfl, hy, hpre⟩ := ih h
      refine ⟨x :: pre, rest, rfl, hy, ?_⟩
      intro z hz
      rcases List.mem_cons.1 hz with rfl | hz'
      · exact hx
      · exact hpre z hz'

/-- C2: If a non-empty external ID is supplied and some candidate's imdb code
equals it case-insensitively, the selection step returns the first such
candidate in list order, regardless of ratings or title similarity (the
similarity oracle `sim` is universally quantified); `_best_match` is only
consulted when no exact-ID match exists. -/
theorem select_exact_id_dominates (sim : List Nat → List Nat → ℚ) (movies : List YTSMovie)
    (title : List Nat) (year : Option Int) (imdbId : List Nat) (hne : imdbId ≠ []) :
    ((∃ m ∈ movies, imdbMatches imdbId m = true) →
      ∃ pre mm rest, movies = pre ++ mm :: rest ∧ imdbMatches imdbId mm = true
        ∧ (∀ z ∈ pre, ¬ imdbMatches imdbId z = true)
        ∧ selectMatch sim movies title year imdbId = some mm)
    ∧ ((∀ m ∈ movies, ¬ imdbMatches imdbId m = true) →
      selectMatch sim movies title year imdbId = _best_match sim movies title year) := by
  constructor
  · rintro ⟨m0, hm0, hp0⟩
    have hs : (movies.find? (imdbMatches imdbId)).isSome = true :=
      List.find?_isSome.2 ⟨m0, hm0, hp0⟩
    obtain ⟨mm, hmm⟩ := Option.isSome_iff_exists.1 hs
    obtain ⟨pre, rest, heq, hpy, hpre⟩ := find?_first_split hmm
    refine ⟨pre, mm, rest, heq, hpy, hpre, ?_⟩
    unfold selectMatch
    rw [if_pos hne, hmm]
  · intro hnone
    have hfind : movies.find? (imdbMatches imdbId) = none :=
      List.find?_eq_none.2 (fun x hx => hnone x hx)
    unfold selectMatch
    rw [if_pos hne, hfind]

/-- Witness for C2: the lower-rated second candidate with the matching imdb
code is selected over the higher-rated first candidate. -/
theorem select_exact_id_dominates_witness :
    ∃ pre mm rest, [mHigh, mLow] = pre ++ mm :: rest
      ∧ imdbMatches (codes ("TT0000001")) mm = true
      ∧ (∀ z ∈ pre, ¬ imdbMatches (codes ("TT0000001")) z = true)
      ∧ selectMatch simZero [mHigh, mLow] (codes ("t")) none (codes ("TT0000001")) = some mm :=
  (select_exact_id_dominates simZero [mHigh, mLow] (codes ("t")) none (codes ("TT0000001"))
    (by decide)).1 ⟨mLow, by decide, by decide⟩

theorem mirrorGo_dns {oracle : Nat → Outcome} {retries fuel attempt : Nat} {b : ℚ}
    (h : oracle attempt = Outcome.dnsError) :
    mirrorGo oracle retries fuel attempt b = (none, [Event.request attempt]) := by
  cases fuel <;> simp [mirrorGo, h]

theorem searchGo_all_dns (oracle : Nat → Nat → Outcome) (retries : Nat)
    (h : ∀ i a, oracle i a = Outcome.dnsError) :
    ∀ l : List Nat, searchGo oracle retries l
      = ([], l.map (fun i => (i, [Event.request 1]))) := by
  intro l
  induction l with
  | nil => simp [searchGo]
  | cons i rest ih =>
    have hi : runMirror (oracle i) retries = (none, [Event.request 1]) :=
      mirrorGo_dns (h i 1)
    rw [searchGo]
    simp only [hi, ih, List.map_cons]

/-- C3: If every mirror raises a DNS error on its request, `yts_search`
returns the empty list (no exception is modelled: the function is total and
takes the normal exit), and each mirror is attempted exactly once with no
sleeps — the trace is one request (attempt 1) per mirror. -/
theorem yts_search_all_dns (oracle : Nat → Nat → Outcome) (n retries : Nat)
    (h : ∀ i a, oracle i a = Outcome.dnsError) :
    yts_search oracle n retries
      = ([], (List.range n).map (fun i => (i, [Event.request 1]))) := by
  unfold yts_search
  exact searchGo_all_dns oracle retries h (List.range n)

/-- Witness for C3 with two mirrors and a retry budget of 3. -/
theorem yts_search_all_dns_witness :
    yts_search oracleDns 2 3 = ([], [(0, [Event.request 1]), (1, [Event.request 1])]) := by
  rw [yts_search_all_dns oracleDns 2 3 (fun _ _ => rfl)]
  rfl

theorem mirrorGo_sleeps (oracle : Nat → Outcome) (retries : Nat) :
    ∀ (fuel attempt : Nat) (b : ℚ),
    ∃ mcount, sleepsOf (mirrorGo oracle retries fuel attempt b).2
      = (List.range mcount).map (fun k => b * 2 ^ k) := by
  intro fuel
  induction fuel with
  | zero =>
    intro attempt b
    refine ⟨0, ?_⟩
    cases h : oracle attempt with
    | dnsError => simp [mirrorGo, h, sleepsOf]
    | nonJson => simp [mirrorGo, h, sleepsOf]
    | reqError => simp [mirrorGo, h, sleepsOf]
    | success slow ms => simp [mirrorGo, h, sleepsOf]
  | succ f ih =>
    intro attempt b
    cases h : oracle attempt with
    | dnsError => exact ⟨0, by simp [mirrorGo, h, sleepsOf]⟩
    | nonJson => exact ⟨0, by simp [mirrorGo, h, sleepsOf]⟩
    | reqError =>
      by_cases hle : attempt ≤ retries
      · obtain ⟨mc, hmc⟩ := ih (attempt + 1) (2 * b)
        refine ⟨mc + 1, ?_⟩
        rw [mirrorGo, h]
        simp only [if_pos hle, sleepsOf, List.filterMap_cons]
        rw [← sleepsOf, hmc, List.range_succ_eq_map, List.map_cons, List.map_map]
        refine congrArg₂ _ (by ring) (List.map_congr_left ?_)
        intro k _
        simp only [Function.comp_apply]
        rw [pow_succ]
        ring
      · exact ⟨0, by simp [mirrorGo, h, if_neg hle, sleepsOf]⟩
    | success slow ms =>
      by_cases hc : slow = true ∧ attempt ≤ retries
      · obtain ⟨mc, hmc⟩ := ih (attempt + 1) (2 * b)
        refine ⟨mc + 1, ?_⟩
        rw [mirrorGo, h]
        simp only [if_pos hc, sleepsOf, List.filterMap_cons]
        rw [← sleepsOf, hmc, List.range_succ_eq_map, List.map_cons, List.map_map]
        refine congrArg₂ _ (by ring) (List.map_congr_left ?_)
        intro k _
        simp only [Function.comp_apply]
        rw [pow_succ]
        ring
      · exact ⟨0, by simp [mirrorGo, h, if_neg hc, sleepsOf]⟩

theorem searchGo_groups (oracle : Nat → Nat → Outcome) (retries : Nat) :
    ∀ (l : List Nat), ∀ p ∈ (searchGo oracle retries l).2,
      p.2 = (runMirror (oracle p.1) retries).2 := by
  intro l
  induction l with
  | nil => intro p hp; simp [searchGo] at hp
  | cons i rest ih =>
    intro p hp
    rw [searchGo] at hp
    cases hr : (runMirror (oracle i) retries).1 with
    | some ms =>
      simp only [hr] at hp
      rcases List.mem_singleton.1 hp with rfl
      rfl
    | none =>
      simp only [hr] at hp
      rcases List.mem_cons.1 hp with rfl | hp'
      · rfl
      · exact ih p hp'

/-- C4: Within a single mirror's attempt loop the k-th sleep (1-based) lasts
`0.75 * 2^(k-1)` seconds — the sleep durations form the doubling sequence
starting at 0.75 — for failure retries and slow-success retries alike; and
every mirror tried by `yts_search` runs `runMirror`, whose backoff restarts
at 0.75, so advancing to the next mirror resets the backoff. -/
theorem yts_search_backoff_schedule (oracle : Nat → Nat → Outcome) (n retries : Nat) :
    (∀ i, ∃ mcount, sleepsOf (runMirror (oracle i) retries).2
        = (List.range mcount).map (fun k => (3/4 : ℚ) * 2 ^ k))
    ∧ ∀ p ∈ (yts_search oracle n retries).2, p.2 = (runMirror (oracle p.1) retries).2 := by
  constructor
  · intro i
    exact mirrorGo_sleeps (oracle i) retries retries 1 (3/4)
  · intro p hp
    exact searchGo_groups oracle retries (List.range n) p hp

/-- Witness for C4: one mirror failing with transport errors under a retry
budget of 1 produces the trace request–sleep(0.75)–request. -/
theorem yts_search_backoff_schedule_witness :
    ((0, [Event.request 1, Event.sleep (3/4), Event.request 2]) : Nat × List Event).2
      = (runMirror (oracleReq 0) 1).2 :=
  (yts_search_backoff_schedule oracleReq 1 1).2
    (0, [Event.request 1, Event.sleep (3/4), Event.request 2]) (List.mem_cons_self _ _)

theorem dropWhile_head_false {p : Nat → Bool} {l : List Nat}
    (h : ∀ x, l.head? = some x → p x = false) : l.dropWhile p = l := by
  cases l with
  | nil => rfl
  | cons x xs =>
    rw [List.dropWhile_cons, if_neg]
    rw [h x rfl]
    simp

theorem rstripSlashes_of_getLast {b : List Nat} {c : Nat}
    (hl : b.getLast? = some c) (hc : c ≠ 47) : rstripSlashes b = b := by
  unfold rstripSlashes
  rw [dropWhile_head_false, List.reverse_reverse]
  intro x hx
  rw [List.head?_reverse, hl] at hx
  obtain rfl := Option.some.inj hx
  simpa using hc

theorem suffix_getLast {b : List Nat} (h : codes ("/api/v2") <:+ b) :
    b.getLast? = some 50 := by
  obtain ⟨pre, rfl⟩ := h
  rw [List.getLast?_append_of_ne_nil _ (by decide)]
  rfl

theorem normBase_of_endswith {raw : List Nat}
    (h : (codes ("/api/v2")).isSuffixOf raw = true) : normBase raw = raw := by
  unfold normBase
  rw [if_pos h]
  exact rstripSlashes_of_getLast (suffix_getLast (List.isSuffixOf_iff_suffix.1 h)) (by decide)

theorem normBase_endswith (raw : List Nat) :
    (codes ("/api/v2")).isSuffixOf (normBase raw) = true := by
  by_cases h : (codes ("/api/v2")).isSuffixOf raw = true
  · rw [normBase_of_endswith h]
    exact h
  · unfold normBase
    rw [if_neg h]
    exact List.isSuffixOf_iff_suffix.2 (List.suffix_append _ _)

theorem dedupFirstGo_spec : ∀ (l : List (List Nat)) (seen : List (List Nat)),
    dedupFirstGo seen l = specDedupFirst (l.filter (fun x => decide (x ∉ seen))) := by
  intro l
  induction l with
  | nil => intro seen; rw [dedupFirstGo, List.filter_nil, specDedupFirst]
  | cons b rest ih =>
    intro seen
    by_cases hb : b ∈ seen
    · rw [dedupFirstGo, if_pos hb, List.filter_cons, if_neg (by simpa using hb)]
      exact ih seen
    · rw [dedupFirstGo, if_neg hb, List.filter_cons, if_pos (by simpa using hb)]
      rw [specDedupFirst, ih (b :: seen)]
      congr 1
      rw [List.filter_filter]
      refine congrArg specDedupFirst (List.filter_congr ?_)
      intro x _
      by_cases hxb : x = b
      · subst hxb
        simp
      · by_cases hxs : x ∈ seen <;> simp [hxb, hxs]

/-- C5: `_yts_bases` returns the environment-configured roots first — each
normalized to end in `/api/v2` with trailing slashes stripped, and a root
that already ends in the segment is not given a second copy — followed by
the built-in default mirrors, with duplicates removed keeping the first
occurrence (`specDedupFirst` is the spec's keep-first dedup). -/
theorem yts_bases_normalized (env : List Nat) :
    _yts_bases env = specDedupFirst (envRoots env ++ _YTS_DEFAULT_BASES)
    ∧ (∀ b ∈ envRoots env, (codes ("/api/v2")).isSuffixOf b = true)
    ∧ (∀ raw, (codes ("/api/v2")).isSuffixOf raw = true → normBase raw = raw) := by
  refine ⟨?_, ?_, fun raw h => normBase_of_endswith h⟩
  · unfold _yts_bases
    rw [dedupFirstGo_spec]
    refine congrArg specDedupFirst ?_
    refine (List.filter_congr ?_).trans (List.filter_true _)
    intro x _
    simp
  · intro b hb
    unfold envRoots at hb
    by_cases he : pyStrip env = []
    · rw [if_pos he] at hb
      cases hb
    · rw [if_neg he] at hb
      rcases List.mem_filterMap.1 hb with ⟨raw, _, hf⟩
      by_cases hr : pyStrip raw = []
      · rw [if_pos hr] at hf
        cases hf
      · rw [if_neg hr] at hf
        obtain rfl := Option.some.inj hf
        exact normBase_endswith _

/-- Witness for C5: a root already carrying the API segment is left as is. -/
theorem yts_bases_normalized_witness :
    normBase (codes ("https://yts.mx/api/v2")) = codes ("https://yts.mx/api/v2") :=
  (yts_bases_normalized (codes (""))).2.2 (codes ("https://yts.mx/api/v2")) (by decide)

/-- Counterexample to C9 as stated: a row that carries a stale `yts_year`
value (and no other enrichment, so it is not skipped) hits the outer
`except Exception` handler of the write loop, and the written enrichment
record is NOT all-empty — `yts_year` keeps the value `2001`. -/
theorem row_error_keeps_stale_year :
    List.lookup (codes ("yts_year")) (writeStep false rowYear ProcOutcome.exn).enriched
      = some (codes ("2001"))
    ∧ codes ("2001") ≠ [] := by
  decide

/-- C9 (amended): on an unexpected non-interrupt exception the batch driver
continues with the remaining rows, writing an enrichment record whose six
fields carry the row's pre-existing values (`row.get(c, "")`), so the record
is all-empty exactly when the row had no prior enrichment; an exception from
the inner `task` call (caught inside `process_one`) always yields the
all-empty record. -/
theorem row_error_enrichment (refresh : Bool) (row : Row)
    (h : skipCond refresh row = false) :
    ((writeStep refresh row ProcOutcome.exn).continues = true
      ∧ (writeStep refresh row ProcOutcome.exn).enriched
          = add_cols.map (fun c => (c, rowGet row c)))
    ∧ ((writeStep refresh row (ProcOutcome.ok (process_one row (Except.error ())))).continues = true
      ∧ (writeStep refresh row (ProcOutcome.ok (process_one row (Except.error ())))).enriched
          = add_cols.map (fun c => (c, []))) := by
  have hw : ∀ proc, writeStep refresh row proc =
      match proc with
      | ProcOutcome.ok combined => ⟨add_cols.zip (combined.drop 1), true⟩
      | ProcOutcome.interrupt => ⟨add_cols.map (fun c => (c, rowGet row c)), false⟩
      | ProcOutcome.exn => ⟨add_cols.map (fun c => (c, rowGet row c)), true⟩ := by
    intro proc
    unfold writeStep
    rw [if_neg (by rw [h]; exact Bool.false_ne_true)]
  refine ⟨⟨by rw [hw], by rw [hw]⟩, ?_, ?_⟩
  · rw [hw]
  · rw [hw]
    show List.zip add_cols ((process_one row (Except.error ())).drop 1)
      = add_cols.map (fun c => (c, []))
    rw [show (process_one row (Except.error ())).drop 1
      = [[], [], [], [], [], []] from rfl]
    rfl

/-- Witness for C9 (amended) at the stale-`yts_year` row. -/
theorem row_error_enrichment_witness :
    (writeStep false rowYear ProcOutcome.exn).continues = true
    ∧ (writeStep false rowYear ProcOutcome.exn).enriched
        = add_cols.map (fun c => (c, rowGet rowYear c)) :=
  (row_error_enrichment false rowYear (by decide)).1

theorem squashGo_id_no_p {p : Nat → Bool} : ∀ {l : List Nat},
    (∀ c ∈ l, p c = false) → ∀ prev, squashGo p prev l = l := by
  intro l
  induction l with
  | nil => intro _ prev; rfl
  | cons c rest ih =>
    intro h prev
    have hc : p c = false := h c (List.mem_cons_self _ _)
    rw [squashGo, if_neg (by rw [hc]; exact Bool.false_ne_true)]
    rw [ih (fun x hx => h x (List.mem_cons_of_mem _ hx)) false]

theorem squashGo_head_true {p : Nat → Bool} : ∀ {l : List Nat} {c : Nat},
    (squashGo p true l).head? = some c → p c = false := by
  intro l
  induction l with
  | nil => intro c h; cases h
  | cons x rest ih =>
    intro c h
    by_cases hx : p x = true
    · rw [squashGo, if_pos hx, if_pos rfl] at h
      exact ih h
    · rw [squashGo, if_neg hx, List.head?_cons] at h
      obtain rfl := Option.some.inj h
      cases hpx : p x with
      | false => rfl
      | true => exact absurd hpx hx

theorem squashGo_mem {p : Nat → Bool} : ∀ {l : List Nat} (prev : Bool) {c : Nat},
    c ∈ squashGo p prev l → c = 32 ∨ (c ∈ l ∧ p c = false) := by
  intro l
  induction l with
  | nil => intro prev c h; cases h
  | cons x rest ih =>
    intro prev c h
    by_cases hx : p x = true
    · cases prev with
      | true =>
        rw [squashGo, if_pos hx, if_pos rfl] at h
        rcases ih true h with h' | ⟨h1, h2⟩
        · exact Or.inl h'
        · exact Or.inr ⟨List.mem_cons_of_mem _ h1, h2⟩
      | false =>
        rw [squashGo, if_pos hx, if_neg Bool.false_ne_true] at h
        rcases List.mem_cons.1 h with rfl | h'
        · exact Or.inl rfl
        · rcases ih true h' with h'' | ⟨h1, h2⟩
          · exact Or.inl h''
          · exact Or.inr ⟨List.mem_cons_of_mem _ h1, h2⟩
    · rw [squashGo, if_neg hx] at h
      rcases List.mem_cons.1 h with rfl | h'
      · refine Or.inr ⟨List.mem_cons_self _ _, ?_⟩
        cases hpx : p c with
        | false => rfl
        | true => exact absurd hpx hx
      · rcases ih false h' with h'' | ⟨h1, h2⟩
        · exact Or.inl h''
        · exact Or.inr ⟨List.mem_cons_of_mem _ h1, h2⟩

theorem squashGo_chain {p : Nat → Bool} : ∀ (l : List Nat) (prev : Bool),
    List.Chain' (fun a b => ¬(p a = true ∧ p b = true)) (squashGo p prev l) := by
  intro l
  induction l with
  | nil => intro prev; simp [squashGo]
  | cons x rest ih =>
    intro prev
    by_cases hx : p x = true
    · cases prev with
      | true =>
        rw [squashGo, if_pos hx, if_pos rfl]
        exact ih true
      | false =>
        rw [squashGo, if_pos hx, if_neg Bool.false_ne_true]
        rw [List.chain'_cons']
        refine ⟨?_, ih true⟩
        intro b hb hcon
        have hbf : p b = false := squashGo_head_true hb
        rw [hbf] at hcon
        exact Bool.false_ne_true hcon.2
    · rw [squashGo, if_neg hx]
      rw [List.chain'_cons']
      refine ⟨?_, ih false⟩
      intro b _ hcon
      exact hx hcon.1

theorem squashGo_eq_self {p : Nat → Bool} : ∀ {l : List Nat} (prev : Bool),
    (∀ c ∈ l, p c = true → c = 32) →
    List.Chain' (fun a b => ¬(p a = true ∧ p b = true)) l →
    (prev = true → ∀ c, l.head? = some c → p c = false) →
    squashGo p prev l = l := by
  intro l
  induction l with
  | nil => intro prev _ _ _; rfl
  | cons x rest ih =>
    intro prev h32 hch hprev
    obtain ⟨hhd, htl⟩ := List.chain'_cons'.1 hch
    by_cases hx : p x = true
    · cases prev with
      | true =>
        have hfx := hprev rfl x rfl
        rw [hx] at hfx
        cases hfx
      | false =>
        rw [squashGo, if_pos hx, if_neg Bool.false_ne_true]
        have hx32 : x = 32 := h32 x (List.mem_cons_self _ _) hx
        rw [ih true (fun c hc => h32 c (List.mem_cons_of_mem _ hc)) htl ?_, hx32]
        intro _ c hc
        cases hpc : p c with
        | false => rfl
        | true => exact absurd ⟨hx, hpc⟩ (hhd c hc)
    · rw [squashGo, if_neg hx]
      congr 1
      exact ih false (fun c hc => h32 c (List.mem_cons_of_mem _ hc)) htl
        (fun hf => absurd hf Bool.false_ne_true)

theorem dropYear_cons_ne40 {c : Nat} (rest : List Nat) (h : c ≠ 40) :
    dropYear (c :: rest) = c :: dropYear rest := by
  rw [dropYear.eq_def]
  split
  · rename_i heq
    injection heq with h1 _
    exact absurd h1 h
  · rename_i heq
    injection heq with h1 h2
    rw [h1, h2]
  · rename_i heq
    cases heq

theorem dropYear_id : ∀ {l : List Nat}, 40 ∉ l → dropYear l = l := by
  intro l
  induction l with
  | nil => intro _; rfl
  | cons c rest ih =>
    intro h
    have hc : c ≠ 40 := fun hh => h (hh ▸ List.mem_cons_self _ _)
    rw [dropYear_cons_ne40 rest hc, ih (fun hr => h (List.mem_cons_of_mem _ hr))]

theorem dropYear_sublist (l : List Nat) : List.Sublist (dropYear l) l := by
  have H : ∀ (n : Nat) (l : List Nat), l.length ≤ n → List.Sublist (dropYear l) l := by
    intro n
    induction n with
    | zero =>
      intro l hl
      obtain rfl := List.length_eq_zero.1 (Nat.le_zero.1 hl)
      exact List.Sublist.refl _
    | succ n ih =>
      intro l hl
      rw [dropYear.eq_def]
      split
      · rename_i d1 d2 d3 d4 r
        rw [List.length_cons, List.length_cons, List.length_cons, List.length_cons,
          List.length_cons, List.length_cons] at hl
        split
        · refine (ih r (by omega)).trans ?_
          refine (List.sublist_cons_self 41 r).trans ?_
          refine (List.sublist_cons_self d4 _).trans ?_
          refine (List.sublist_cons_self d3 _).trans ?_
          refine (List.sublist_cons_self d2 _).trans ?_
          refine (List.sublist_cons_self d1 _).trans ?_
          exact List.sublist_cons_self 40 _
        · exact List.Sublist.cons₂ 40 (ih _ (by simp only [List.length_cons]; omega))
      · rename_i c r _ 
        rw [List.length_cons] at hl
        exact List.Sublist.cons₂ c (ih r (by omega))
      · exact List.Sublist.refl _
  exact H l.length l (Nat.le_refl _)

theorem head_dropWhile_false {p : Nat → Bool} : ∀ {l : List Nat} {c : Nat},
    (l.dropWhile p).head? = some c → p c = false := by
  intro l
  induction l with
  | nil => intro c h; cases h
  | cons x xs ih =>
    intro c h
    rw [List.dropWhile_cons] at h
    by_cases hx : p x = true
    · rw [if_pos hx] at h
      exact ih h
    · rw [if_neg hx, List.head?_cons] at h
      obtain rfl := Option.some.inj h
      cases hpx : p x with
      | false => rfl
      | true => exact absurd hpx hx

theorem pyStrip_subset {l : List Nat} : ∀ {c : Nat}, c ∈ pyStrip l → c ∈ l := by
  intro c hc
  unfold pyStrip at hc
  rw [List.mem_reverse] at hc
  have h1 := (List.dropWhile_suffix _).subset hc
  rw [List.mem_reverse] at h1
  exact (List.dropWhile_suffix _).subset h1

theorem pyStrip_head {l : List Nat} : ∀ {c : Nat},
    (pyStrip l).head? = some c → isSpaceCode c = false := by
  intro c hc
  unfold pyStrip at hc
  rw [List.head?_reverse] at hc
  obtain ⟨t, ht⟩ :=
    List.dropWhile_suffix (l := (List.dropWhile isSpaceCode l).reverse) isSpaceCode
  have hzne : List.dropWhile isSpaceCode (List.dropWhile isSpaceCode l).reverse ≠ [] := by
    intro h0
    rw [h0] at hc
    cases hc
  have hfull : (t ++ List.dropWhile isSpaceCode
      (List.dropWhile isSpaceCode l).reverse).getLast? = some c := by
    rw [List.getLast?_append_of_ne_nil _ hzne]
    exact hc
  rw [ht, List.getLast?_reverse] at hfull
  exact head_dropWhile_false hfull

theorem pyStrip_getLast {l : List Nat} : ∀ {c : Nat},
    (pyStrip l).getLast? = some c → isSpaceCode c = false := by
  intro c hc
  unfold pyStrip at hc
  rw [List.getLast?_reverse] at hc
  exact head_dropWhile_false hc

theorem pyStrip_chain {R : Nat → Nat → Prop} (hsym : ∀ a b, R a b → R b a) {l : List Nat}
    (h : List.Chain' R l) : List.Chain' R (pyStrip l) := by
  unfold pyStrip
  have h1 : List.Chain' R (List.dropWhile isSpaceCode l) :=
    h.suffix (List.dropWhile_suffix _)
  have h2 : List.Chain' R (List.dropWhile isSpaceCode l).reverse := by
    rw [List.chain'_reverse]
    exact List.Chain'.imp hsym h1
  have h3 : List.Chain' R (List.dropWhile isSpaceCode
      (List.dropWhile isSpaceCode l).reverse) :=
    h2.suffix (List.dropWhile_suffix _)
  rw [List.chain'_reverse]
  exact List.Chain'.imp hsym h3

theorem pyStrip_id {l : List Nat}
    (hh : ∀ c, l.head? = some c → isSpaceCode c = false)
    (hl : ∀ c, l.getLast? = some c → isSpaceCode c = false) :
    pyStrip l = l := by
  unfold pyStrip
  rw [dropWhile_head_false hh]
  rw [dropWhile_head_false ?_, List.reverse_reverse]
  intro x hx
  rw [List.head?_reverse] at hx
  exact hl x hx

theorem punctFix_cases (y : Nat) :
    punctFix y = 32 ∨ (punctFix y = y ∧ (isWordCode y = true ∨ isSpaceCode y = true)) := by
  unfold punctFix
  by_cases h : (!isWordCode y && !isSpaceCode y) = true
  · rw [if_pos h]
    exact Or.inl rfl
  · rw [if_neg h]
    refine Or.inr ⟨rfl, ?_⟩
    cases hw : isWordCode y with
    | true => exact Or.inl rfl
    | false =>
      cases hs : isSpaceCode y with
      | true => exact Or.inr rfl
      | false => exact absurd (by rw [hw, hs]; rfl) h

theorem char_good {y : Nat} (hy : y < 128) (hw : isWordCode y = true)
    (hsep : isSepCode y = false) (hsp : isSpaceCode y = false) :
    GoodChar (lowerCode y) := by
  simp only [isWordCode, isSepCode, isSpaceCode, Bool.or_eq_true, Bool.and_eq_true,
    Bool.or_eq_false_iff, decide_eq_true_eq, decide_eq_false_iff_not] at hw hsep hsp
  unfold lowerCode GoodChar
  split <;> omega

theorem good_sep {c : Nat} (h : GoodChar c) : isSepCode c = false := by
  rcases h with rfl | h | h
  · decide
  all_goals
    simp only [isSepCode, Bool.or_eq_false_iff, decide_eq_false_iff_not]
  all_goals omega

theorem good_ne40 {c : Nat} (h : GoodChar c) : c ≠ 40 := by
  rcases h with rfl | h | h <;> omega

theorem good_punctFix {c : Nat} (h : GoodChar c) : punctFix c = c := by
  have hws : (!isWordCode c && !isSpaceCode c) = false := by
    rcases h with rfl | h | h
    · decide
    all_goals
      have hword : isWordCode c = true := by
        simp only [isWordCode, Bool.or_eq_true, Bool.and_eq_true, decide_eq_true_eq]
        omega
    all_goals rw [hword]; rfl
  unfold punctFix
  rw [hws, if_neg Bool.false_ne_true]

theorem good_space32 {c : Nat} (h : GoodChar c) (hs : isSpaceCode c = true) : c = 32 := by
  simp only [isSpaceCode, Bool.or_eq_true, decide_eq_true_eq] at hs
  rcases h with rfl | h | h <;> omega

theorem good_lower {c : Nat} (h : GoodChar c) : lowerCode c = c := by
  unfold lowerCode
  split
  · rename_i hcon
    rcases h with rfl | h | h <;> omega
  · rfl

theorem space_lower (x : Nat) : isSpaceCode (lowerCode x) = isSpaceCode x := by
  unfold lowerCode
  split
  · rename_i h
    have h1 : isSpaceCode (x + 32) = false := by
      simp only [isSpaceCode, Bool.or_eq_false_iff, decide_eq_false_iff_not]
      omega
    have h2 : isSpaceCode x = false := by
      simp only [isSpaceCode, Bool.or_eq_false_iff, decide_eq_false_iff_not]
      omega
    rw [h1, h2]
  · rfl

theorem map_id_of_mem {f : Nat → Nat} {l : List Nat} (h : ∀ c ∈ l, f c = c) :
    l.map f = l :=
  (List.map_congr_left h).trans (List.map_id _)

theorem punctFix_val (y : Nat) : punctFix y = 32 ∨ punctFix y = y := by
  rcases punctFix_cases y with h | ⟨h, _⟩
  · exact Or.inl h
  · exact Or.inr h

theorem stage_ascii {s : List Nat} (hA : ∀ c ∈ s, c < 128) :
    ∀ x ∈ pyStrip (squashGo isSpaceCode false
      ((dropYear (squashGo isSepCode false s)).map punctFix)), x < 128 := by
  intro x hx5
  have hx4 := pyStrip_subset hx5
  rcases squashGo_mem false hx4 with rfl | ⟨hx3, _⟩
  · omega
  · rcases List.mem_map.1 hx3 with ⟨y, hy2, rfl⟩
    have hy1 := (dropYear_sublist _).subset hy2
    have hy128 : y < 128 := by
      rcases squashGo_mem false hy1 with rfl | ⟨hys, _⟩
      · omega
      · exact hA y hys
    rcases punctFix_val y with h | h <;> rw [h] <;> omega

theorem lowerChars_ascii {x : Nat} (hx : x < 128) : lowerChars x = [lowerCode x] := by
  unfold lowerChars lowerCode
  by_cases h : 65 ≤ x ∧ x ≤ 90
  · rw [if_pos h, if_pos h]
  · rw [if_neg h, if_neg (by omega), if_neg h]

theorem pyLower_eq_map {l : List Nat} (h : ∀ x ∈ l, x < 128) :
    pyLower l = l.map lowerCode := by
  induction l with
  | nil => rfl
  | cons x rest ih =>
    show lowerChars x ++ pyLower rest = lowerCode x :: rest.map lowerCode
    rw [lowerChars_ascii (h x (List.mem_cons_self _ _)),
      ih (fun z hz => h z (List.mem_cons_of_mem _ hz))]
    rfl

theorem sanitize_eq_map {s : List Nat} (hA : ∀ c ∈ s, c < 128) :
    _sanitize_title s = (pyStrip (squashGo isSpaceCode false
      ((dropYear (squashGo isSepCode false s)).map punctFix))).map lowerCode :=
  pyLower_eq_map (stage_ascii hA)

theorem sanitize_mem_good (s : List Nat) (hA : ∀ c ∈ s, c < 128) :
    ∀ c ∈ _sanitize_title s, GoodChar c := by
  intro c hc
  rw [sanitize_eq_map hA] at hc
  rcases List.mem_map.1 hc with ⟨x, hx5, rfl⟩
  have hx128 := stage_ascii hA x hx5
  have hx4 := pyStrip_subset hx5
  rcases squashGo_mem false hx4 with rfl | ⟨hx3, hxsp⟩
  · exact Or.inl rfl
  · rcases List.mem_map.1 hx3 with ⟨y, hy2, rfl⟩
    rcases punctFix_cases y with hpf | ⟨hpf, hws⟩
    · rw [hpf] at hxsp
      exact absurd hxsp (by decide)
    · rw [hpf] at hxsp hx128 ⊢
      have hy1 := (dropYear_sublist _).subset hy2
      rcases squashGo_mem false hy1 with rfl | ⟨_, hysep⟩
      · exact absurd hxsp (by decide)
      · have hword : isWordCode y = true := by
          rcases hws with hw | hs
          · exact hw
          · rw [hs] at hxsp
            cases hxsp
        exact char_good hx128 hword hysep hxsp

theorem sanitize_chain (s : List Nat) (hA : ∀ c ∈ s, c < 128) :
    List.Chain' (fun a b => ¬(isSpaceCode a = true ∧ isSpaceCode b = true))
      (_sanitize_title s) := by
  rw [sanitize_eq_map hA]
  rw [List.chain'_map]
  refine List.Chain'.imp ?_
    (pyStrip_chain (fun a b hab hcon => hab ⟨hcon.2, hcon.1⟩) (squashGo_chain _ _))
  intro a b hab hcon
  rw [space_lower, space_lower] at hcon
  exact hab hcon

theorem sanitize_head (s : List Nat) (hA : ∀ c ∈ s, c < 128) :
    ∀ c, (_sanitize_title s).head? = some c → isSpaceCode c = false := by
  intro c hc
  rw [sanitize_eq_map hA, List.head?_map] at hc
  cases hh : (pyStrip (squashGo isSpaceCode false
      ((dropYear (squashGo isSepCode false s)).map punctFix))).head? with
  | none => rw [hh] at hc; cases hc
  | some x =>
    rw [hh] at hc
    obtain rfl := Option.some.inj hc
    rw [space_lower]
    exact pyStrip_head hh

theorem sanitize_getLast (s : List Nat) (hA : ∀ c ∈ s, c < 128) :
    ∀ c, (_sanitize_title s).getLast? = some c → isSpaceCode c = false := by
  intro c hc
  rw [sanitize_eq_map hA, List.getLast?_map] at hc
  cases hh : (pyStrip (squashGo isSpaceCode false
      ((dropYear (squashGo isSepCode false s)).map punctFix))).getLast? with
  | none => rw [hh] at hc; cases hc
  | some x =>
    rw [hh] at hc
    obtain rfl := Option.some.inj hc
    rw [space_lower]
    exact pyStrip_getLast hh

/-- Counterexample to C7 as stated: on the single-character input U+0130
(`İ`), the first normalization pass keeps the character (it is a word
character) and the final `lower()` turns it into `i` followed by the
combining mark U+0307; the second pass deletes the mark (it is neither a
word nor a space character) and strips the resulting trailing space, so
`_sanitize_title` is not idempotent on this input. -/
theorem sanitize_title_not_idem_unicode :
    _sanitize_title [304] = [105, 775]
    ∧ _sanitize_title (_sanitize_title [304]) = [105]
    ∧ _sanitize_title (_sanitize_title [304]) ≠ _sanitize_title [304] := by
  decide

/-- C7 (amended): title normalization is idempotent on every ASCII input —
`_sanitize_title (_sanitize_title s) = _sanitize_title s` whenever every
code point of `s` is below 128.  (On general Unicode input idempotence
fails; see the U+0130 counterexample.) -/
theorem sanitize_title_idem_ascii (s : List Nat) (hA : ∀ c ∈ s, c < 128) :
    _sanitize_title (_sanitize_title s) = _sanitize_title s := by
  have hgood := sanitize_mem_good s hA
  have houtA : ∀ c ∈ _sanitize_title s, c < 128 := by
    intro c hc
    rcases hgood c hc with rfl | h | h <;> omega
  rw [sanitize_eq_map houtA]
  rw [squashGo_id_no_p (fun c hc => good_sep (hgood c hc)) false]
  rw [dropYear_id (fun h40 => good_ne40 (hgood 40 h40) rfl)]
  rw [map_id_of_mem (fun c hc => good_punctFix (hgood c hc))]
  rw [squashGo_eq_self false (fun c hc hs => good_space32 (hgood c hc) hs)
    (sanitize_chain s hA) (fun hf => absurd hf Bool.false_ne_true)]
  rw [pyStrip_id (sanitize_head s hA) (sanitize_getLast s hA)]
  exact map_id_of_mem (fun c hc => good_lower (hgood c hc))

/-- Witness for C7 (amended) at a concrete ASCII title. -/
theorem sanitize_title_idem_ascii_witness :
    _sanitize_title (_sanitize_title (codes ("The.Matrix (1999) HD")))
      = _sanitize_title (codes ("The.Matrix (1999) HD")) :=
  sanitize_title_idem_ascii (codes ("The.Matrix (1999) HD")) (by decide)
